import Mathlib

/-!
Verification of the update-scheduling core of nuqs-solid.

The development shallowly embeds the code of
src/packages/nuqs-solid/src/lib/queues/debounce.ts,
src/packages/nuqs-solid/src/lib/timeout.ts and the updater of
src/packages/nuqs-solid/src/create-query-states.ts.

JavaScript promises are modelled by numeric identities plus an append-only
settlement log: a promise id is settled at most once (the resolvable-promise
primitive makes double resolution a no-op), and the log records the eventual
settlement of each id.  Timers are modelled by records carrying a liveness
flag: cancelling via an abort signal clears the flag, and only a live timer
can fire.  Single-threaded cooperative concurrency means every method body
runs atomically; timer expiry is a separate atomic step.
-/

namespace NuqsSolid

/-- A URL query value: a single string or an ordered list of strings
(multi-valued parameters).  Absence (null) is represented by wrapping in
Option at use sites. -/
inductive Query where
  | single (s : String)
  | multi (ss : List String)
deriving DecidableEq, Repr

/-- Settlement of a promise: resolved with a value or rejected with an error. -/
inductive Settlement (O : Type) (E : Type) where
  | resolved (v : O)
  | rejected (e : E)
deriving DecidableEq, Repr

/-- Modelled from the spec: the resolvable promise primitive (lib/with-resolvers.ts,
not under src/) produces a promise whose resolve/reject are no-ops after the
first settlement.  Settling an id that is already in the log leaves the log
unchanged. -/
def settleOnce {O E : Type} (log : List (Nat × Settlement O E)) (pid : Nat)
    (st : Settlement O E) : List (Nat × Settlement O E) :=
  match log.lookup pid with
  | some _ => log
  | none => (pid, st) :: log

/-- A scheduled timer of the debounced promise queue.  The value is the one
captured by the onTick closure at scheduling time; live is cleared when the
owning AbortController aborts (clearTimeout) or when the timer fires. -/
structure TimerRec (V : Type) where
  tid : Nat
  value : V
  delay : Nat
  live : Bool
deriving DecidableEq, Repr

/-- Cancel every timer in the list (an abort of the current controller: at most
one timer is live at a time, so this kills exactly the pending one). -/
def cancelTimers {V : Type} (ts : List (TimerRec V)) : List (TimerRec V) :=
  ts.map (fun t => { t with live := false })

/-- State of DebouncedPromiseQueue (src/lib/queues/debounce.ts, lines 18-59):
resolversId is the identity of the current withResolvers promise, queuedValue
the pending value, timers the scheduling history (at most one live). -/
structure DebouncedPromiseQueue (V O E : Type) where
  resolversId : Nat
  queuedValue : Option V
  timers : List (TimerRec V)
  nextTimerId : Nat
  nextPromiseId : Nat
  settled : List (Nat × Settlement O E)
deriving Repr

/-- A freshly constructed queue: fresh resolvers (id 0), nothing queued. -/
def DebouncedPromiseQueue.new {V O E : Type} : DebouncedPromiseQueue V O E :=
  ⟨0, none, [], 0, 1, []⟩

/-- DebouncedPromiseQueue.push (debounce.ts lines 33-58): store the value,
abort the previous controller (cancelling its timer), create a fresh
controller and schedule a new timer; the promise of the current, unchanged
resolvers is returned to the caller. -/
def DebouncedPromiseQueue.push {V O E : Type} (q : DebouncedPromiseQueue V O E)
    (value : V) (timeMs : Nat) : Nat × DebouncedPromiseQueue V O E :=
  (q.resolversId,
   { q with
     queuedValue := some value
     timers := ⟨q.nextTimerId, value, timeMs, true⟩ :: cancelTimers q.timers
     nextTimerId := q.nextTimerId + 1 })

/-- DebouncedPromiseQueue.abort (debounce.ts lines 28-31): abort the
controller and drop the queued value. -/
def DebouncedPromiseQueue.abort {V O E : Type} (q : DebouncedPromiseQueue V O E) :
    DebouncedPromiseQueue V O E :=
  { q with timers := cancelTimers q.timers, queuedValue := none }

/-- Behaviour of the flush callback when invoked: it either throws
synchronously or returns a promise that eventually settles. -/
inductive CbBehavior (O E : Type) where
  | throwsSync (e : E)
  | settlesAsync (s : Settlement O E)

/-- Expiry of timer tid (the onTick body scheduled in debounce.ts lines 38-53).
Only a live timer can fire (a cleared timeout never ticks).  The body captures
the current resolvers; on a synchronous throw it clears the queued value and
rejects them (resolvers are not replaced); otherwise it clears the queued
value, installs fresh resolvers, and forwards the callback settlement to the
captured resolvers.  The settlement log records the eventual outcome. -/
def DebouncedPromiseQueue.fire {V O E : Type} (q : DebouncedPromiseQueue V O E)
    (tid : Nat) (cb : V → CbBehavior O E) : DebouncedPromiseQueue V O E :=
  match q.timers.find? (fun t => t.tid == tid && t.live) with
  | none => q
  | some t =>
    let fired := q.timers.map (fun u => if u.tid == tid then { u with live := false } else u)
    match cb t.value with
    | .throwsSync e =>
      { q with
        timers := fired
        queuedValue := none
        settled := settleOnce q.settled q.resolversId (.rejected e) }
    | .settlesAsync s =>
      { q with
        timers := fired
        queuedValue := none
        resolversId := q.nextPromiseId
        nextPromiseId := q.nextPromiseId + 1
        settled := settleOnce q.settled q.resolversId s }


/-- A JavaScript delay value: a (nonnegative) finite number of milliseconds,
or a non-finite value (Infinity), for which Number.isFinite is false. -/
inductive JsTime where
  | fin (n : Nat)
  | inf
deriving DecidableEq, Repr

def JsTime.isFinite : JsTime → Bool
  | .fin _ => true
  | .inf => false

/-- The JavaScript < comparison on delays. -/
def JsTime.blt : JsTime → JsTime → Bool
  | .fin a, .fin b => a < b
  | .fin _, .inf => true
  | .inf, _ => false

def JsTime.max (a b : JsTime) : JsTime := if a.blt b then b else a

/-- The JavaScript <= comparison on delays. -/
def JsTime.ble (a b : JsTime) : Bool := !(b.blt a)

/-- History mode of a URL update. -/
inductive HistoryMode where
  | push
  | replace
deriving DecidableEq, Repr

/-- Per-update options carried by a pending update (defs.ts Options slice used
by the queues).  startTransition records whether a transition wrapper is
present. -/
structure PushOptions where
  history : HistoryMode
  shallow : Bool
  scroll : Bool
  startTransition : Bool
deriving DecidableEq, Repr

/-- UpdateQueuePushArgs (throttle.ts, re-exported shape used by debounce.ts):
a pending update for one URL key.  query is none for null (remove the key). -/
structure UpdateQueuePushArgs where
  key : String
  query : Option Query
  options : PushOptions
deriving DecidableEq, Repr

/-- URLSearchParams modelled as an ordered list of key-value pairs. -/
abbrev SearchParams := List (String × String)

/-- Per-key entry of the DebounceController queue map: the fields of the
underlying DebouncedPromiseQueue that the controller observes — the identity
of its current resolvers, its queued value, and its live timer if any. -/
structure DCEntry where
  resolversId : Nat
  queuedValue : Option UpdateQueuePushArgs
  timerId : Option Nat
deriving DecidableEq, Repr

/-- Adapter context as the controller sees it: getSearchParamsSnapshot (with
the location fallback collapsed into it) yields the current parameters. -/
structure AdapterCtx where
  snapshot : SearchParams
deriving DecidableEq, Repr

/-- State of DebounceController (debounce.ts lines 71-183).  throttleQueued is
modelled from the spec: ThrottledQueue.getQueuedQuery (throttle.ts, not under
src/) returns the currently buffered query value for a key, or undefined if
none is pending.  emissions logs the queuedQuerySync emits in order;
cancelledTimers the timers cleared through their abort signals; settled the
eventual settlement of each promise id. -/
structure DebounceController where
  queues : List (String × DCEntry)
  throttleQueued : String → Option (Option Query)
  emissions : List String
  cancelledTimers : List Nat
  settled : List (Nat × Settlement SearchParams String)
  nextPromiseId : Nat
  nextTimerId : Nat

/-- Replace the entry for a key in the queue map (Map.set semantics). -/
def setEntry (qs : List (String × DCEntry)) (key : String) (e : DCEntry) :
    List (String × DCEntry) :=
  match qs with
  | [] => [(key, e)]
  | (k, v) :: rest =>
    if k == key then (k, e) :: rest else (k, v) :: setEntry rest key e

/-- DebounceController.getQueuedQuery (debounce.ts lines 176-182): the
debounced queued query if one is present (it may be null), else the throttled
queue value for that key. -/
def DebounceController.getQueuedQuery (s : DebounceController) (key : String) :
    Option (Option Query) :=
  match (s.queues.lookup key).bind (fun e => e.queuedValue) with
  | some u => some u.query
  | none => s.throttleQueued key

/-- DebounceController.push (debounce.ts lines 106-139).  A non-finite delay
bypasses debouncing and returns a fresh promise resolved with the adapter
snapshot.  Otherwise the per-key queue is created lazily (fresh resolvers,
nothing queued), its inner push stores the update, cancels the previous timer
and schedules a new one, and queuedQuerySync emits for the key; the promise of
the entry's current resolvers is returned. -/
def DebounceController.push (s : DebounceController) (update : UpdateQueuePushArgs)
    (timeMs : JsTime) (adapter : AdapterCtx) : Nat × DebounceController :=
  if timeMs.isFinite = false then
    (s.nextPromiseId,
     { s with
       settled := settleOnce s.settled s.nextPromiseId (.resolved adapter.snapshot)
       nextPromiseId := s.nextPromiseId + 1 })
  else
    let key := update.key
    let (entry, s1) :=
      match s.queues.lookup key with
      | some e => (e, s)
      | none =>
        let e : DCEntry := ⟨s.nextPromiseId, none, none⟩
        (e, { s with
              queues := (key, e) :: s.queues
              nextPromiseId := s.nextPromiseId + 1 })
    let cancelled :=
      match entry.timerId with
      | some t => t :: s1.cancelledTimers
      | none => s1.cancelledTimers
    let e2 : DCEntry := { entry with queuedValue := some update, timerId := some s1.nextTimerId }
    (e2.resolversId,
     { s1 with
       queues := setEntry s1.queues key e2
       cancelledTimers := cancelled
       nextTimerId := s1.nextTimerId + 1
       emissions := s1.emissions ++ [key] })

/-- DebounceController.abort (debounce.ts lines 141-160): with no entry for
the key, return the identity passthrough and touch nothing.  Otherwise delete
the entry, cancel its timer, emit for the key, and return (as the wiring
component) the resolvers of the aborted entry, to which the passthrough
forwards the settlement of whatever promise it is later applied to. -/
def DebounceController.abort (s : DebounceController) (key : String) :
    DebounceController × Option Nat :=
  match s.queues.lookup key with
  | none => (s, none)
  | some e =>
    ({ s with
       queues := s.queues.filter (fun p => !(p.1 == key))
       cancelledTimers :=
         match e.timerId with
         | some t => t :: s.cancelledTimers
         | none => s.cancelledTimers
       emissions := s.emissions ++ [key] },
     some e.resolversId)

/-- The passthrough returned by abort, applied once the outer promise settles
(debounce.ts lines 156-159): promise.then(resolve, reject) forwards the
outcome to the aborted entry's resolvers; the identity passthrough (wiring
none) forwards nothing. -/
def applyWiring (s : DebounceController) (w : Option Nat)
    (outcome : Settlement SearchParams String) : DebounceController :=
  match w with
  | none => s
  | some pid => { s with settled := settleOnce s.settled pid outcome }

/-- One step of DebounceController.abortAll (debounce.ts lines 163-172): abort
the entry's controller (cancelling its timer), resolve its resolvers with an
empty URLSearchParams, and emit for the key. -/
def abortAllStep (acc : DebounceController) (kv : String × DCEntry) :
    DebounceController :=
  { acc with
    cancelledTimers :=
      match kv.2.timerId with
      | some t => t :: acc.cancelledTimers
      | none => acc.cancelledTimers
    settled := settleOnce acc.settled kv.2.resolversId (.resolved [])
    emissions := acc.emissions ++ [kv.1] }

/-- DebounceController.abortAll (debounce.ts lines 162-174): process every
entry in map order, then clear the queue map. -/
def DebounceController.abortAll (s : DebounceController) : DebounceController :=
  let s1 := s.queues.foldl abortAllStep s
  { s1 with queues := [] }

/-- State of one timeout call (src/lib/timeout.ts): whether the setTimeout is
still armed (neither fired nor cleared), whether the abort listener is still
attached, and how many times the callback has run. -/
structure TimeoutState where
  timerArmed : Bool
  listenerAttached : Bool
  callbackRuns : Nat
deriving DecidableEq, Repr

/-- timeout (timeout.ts lines 10 and 15): arm the timer and attach the abort
listener. -/
def timeoutSchedule : TimeoutState := ⟨true, true, 0⟩

/-- onTick (timeout.ts lines 6-9): fires only while the timer is armed; it
runs the callback and detaches the abort listener. -/
def timeoutTick (s : TimeoutState) : TimeoutState :=
  if s.timerArmed then ⟨false, false, s.callbackRuns + 1⟩ else s

/-- onAbort (timeout.ts lines 11-14): delivered only while the listener is
attached; it clears the timer and detaches itself.  An AbortSignal dispatches
its abort event only when it transitions to aborted after the listener was
registered: a signal that was already aborted when timeout was called never
delivers the event to the fresh listener. -/
def timeoutAbortEvent (s : TimeoutState) : TimeoutState :=
  if s.listenerAttached then ⟨false, false, s.callbackRuns⟩ else s

/-- The four possible interleavings of one timeout call with its cancel
signal, under single-threaded cooperative scheduling. -/
inductive AbortScenario where
  | neverFires
  | alreadyAborted
  | firesDuring
  | firesAfter
deriving DecidableEq, Repr

/-- Complete run of a timeout call under each interleaving.  For
alreadyAborted the abort event is not delivered (see timeoutAbortEvent), so
the timer expires as if the signal never fired; for firesDuring the abort
event arrives before expiry and the cleared timer never ticks; for firesAfter
the tick already detached the listener, so the late abort event is a no-op. -/
def timeoutRun : AbortScenario → TimeoutState
  | .neverFires => timeoutTick timeoutSchedule
  | .alreadyAborted => timeoutTick timeoutSchedule
  | .firesDuring => timeoutTick (timeoutAbortEvent timeoutSchedule)
  | .firesAfter => timeoutAbortEvent (timeoutTick timeoutSchedule)

/-- The cancel signal fires before the delay elapses in exactly these two
scenarios: it was already aborted at the call, or it aborts during the wait. -/
def signalFiresBeforeExpiry (sc : AbortScenario) : Bool :=
  sc == .alreadyAborted || sc == .firesDuring


/-- Rate-limit method of a per-call or per-field override. -/
inductive RLMethod where
  | throttle
  | debounce
deriving DecidableEq, Repr

/-- A rate-limit descriptor: method plus delay. -/
structure RateLimit where
  method : RLMethod
  timeMs : JsTime
deriving DecidableEq, Repr

/-- Modelled from the spec: the process default rate limit
(lib/queues/rate-limiting.ts, not under src/): the process-wide throttle
floor.  No claim depends on the concrete figure. -/
def defaultRateLimit : RateLimit := ⟨.throttle, .fin 50⟩

/-- The per-field (parser) configuration slice read by the updater
(create-query-states.ts): scheduling and option overrides, default value,
equality and serializer.  eq none models an absent parser.eq (JS strict
equality, here BEq, is then used); serialize none models the String coercion
fallback; startTransition layers record only the presence of a transition
wrapper. -/
structure ParserCfg (V : Type) where
  limitUrlUpdates : Option RateLimit
  throttleMs : Option JsTime
  history : Option HistoryMode
  shallow : Option Bool
  scroll : Option Bool
  startTransition : Option Unit
  clearOnDefault : Option Bool
  defaultValue : Option V
  eq : Option (V → V → Bool)
  serialize : Option (V → Query)

/-- The per-call options object of the updater (Options). -/
structure CallOptions where
  limitUrlUpdates : Option RateLimit
  throttleMs : Option JsTime
  history : Option HistoryMode
  shallow : Option Bool
  scroll : Option Bool
  startTransition : Option Unit
  clearOnDefault : Option Bool
deriving DecidableEq, Repr

/-- The hook-level options of createQueryStates after destructuring with
their defaults (create-query-states.ts lines 98-107): history replace,
shallow true, scroll false, clearOnDefault true when no adapter defaults, and
throttleMs defaulting to the process default rate-limit delay. -/
structure HookConfig where
  history : HistoryMode
  shallow : Bool
  scroll : Bool
  limitUrlUpdates : Option RateLimit
  clearOnDefault : Bool
  throttleMs : JsTime
  startTransition : Option Unit
deriving DecidableEq, Repr

/-- One entry of the new-state object passed to the updater, tagged with its
resolved URL key and the parser for its state key (none when the key map has
no parser: the loop skips the field). -/
structure FieldWrite (V : Type) where
  stateKey : String
  urlKey : String
  parser : Option (ParserCfg V)
  value : Option V

/-- The clearOnDefault nullification (create-query-states.ts lines 281-288):
a non-null value equal to the parser default is written as null when
clearOnDefault is enabled (per-call over per-field over hook-level). -/
def resolveValue {V : Type} [BEq V] (hook : HookConfig) (callOpts : CallOptions)
    (p : ParserCfg V) (value : Option V) : Option V :=
  match value with
  | none => none
  | some v =>
    match p.defaultValue with
    | none => some v
    | some d =>
      if (callOpts.clearOnDefault.getD (p.clearOnDefault.getD hook.clearOnDefault))
          && (p.eq.getD (fun a b => a == b)) v d
      then none else some v

/-- Serialization of the written value (line 289): null stays null, otherwise
parser.serialize with the String coercion (jsString) as fallback. -/
def serializeValue {V : Type} (jsString : V → Query) (p : ParserCfg V)
    (value : Option V) : Option Query :=
  value.map (fun v => (p.serialize.getD jsString) v)

/-- Per-update options resolution (lines 294-302): per-call over per-field
over hook-level for history, shallow and scroll; startTransition is present
when any layer provides one. -/
def effectiveOptions {V : Type} (hook : HookConfig) (callOpts : CallOptions)
    (p : ParserCfg V) : PushOptions :=
  { history := callOpts.history.getD (p.history.getD hook.history)
    shallow := callOpts.shallow.getD (p.shallow.getD hook.shallow)
    scroll := callOpts.scroll.getD (p.scroll.getD hook.scroll)
    startTransition :=
      ((callOpts.startTransition.orElse fun _ =>
        (p.startTransition.orElse fun _ => hook.startTransition))).isSome }

/-- The routing test of the updater (lines 304-308): the field is debounced
when the per-call, hook-level or per-field rate limit names debounce. -/
def routesToDebounce (callRL hookRL parserRL : Option RateLimit) : Bool :=
  callRL.any (fun r => r.method == .debounce) ||
  hookRL.any (fun r => r.method == .debounce) ||
  parserRL.any (fun r => r.method == .debounce)

/-- The debounce delay resolution (lines 312-316): per-call, then hook-level,
then per-field, then the process default. -/
def debounceTimeMs (callRL hookRL parserRL : Option RateLimit) : JsTime :=
  (callRL.map (fun r => r.timeMs)).getD
    ((hookRL.map (fun r => r.timeMs)).getD
      ((parserRL.map (fun r => r.timeMs)).getD defaultRateLimit.timeMs))

/-- The throttle delay resolution (lines 327-332): per-call limitUrlUpdates,
per-field limitUrlUpdates, hook-level limitUrlUpdates, per-call throttleMs,
per-field throttleMs, hook-level throttleMs. -/
def throttleTimeMs (callRL parserRL hookRL : Option RateLimit)
    (callThrottleMs parserThrottleMs : Option JsTime)
    (hookThrottleMs : JsTime) : JsTime :=
  (callRL.map (fun r => r.timeMs)).getD
    ((parserRL.map (fun r => r.timeMs)).getD
      ((hookRL.map (fun r => r.timeMs)).getD
        (callThrottleMs.getD (parserThrottleMs.getD hookThrottleMs))))

/-- The observable events of the synchronous body of one updater call, in
program order: cross-hook sync emission with its payload, the shallow+debounce
console warning, routing a field into the debounce or throttle queue (with the
resolved delay), aborting a pending debounce entry, and the final throttled
flush (the only step that triggers a URL commit). -/
inductive Ev (V : Type) where
  | emitSync (urlKey : String) (state : Option V) (query : Option Query)
  | warnShallowDebounce
  | pushDebounce (urlKey : String) (timeMs : JsTime)
  | abortDebounce (urlKey : String)
  | pushThrottle (urlKey : String) (timeMs : JsTime)
  | throttleFlush
deriving DecidableEq, Repr

/-- The events produced for one field of the updater loop (lines 277-336):
nothing when the parser is missing; otherwise the sync emission of the
nullified value and its query, then either the (possibly warned) debounce
routing or the debounce abort followed by the throttle routing. -/
def fieldEvents {V : Type} [BEq V] (hook : HookConfig) (callOpts : CallOptions)
    (jsString : V → Query) (f : FieldWrite V) : List (Ev V) :=
  match f.parser with
  | none => []
  | some p =>
    let value := resolveValue hook callOpts p f.value
    Ev.emitSync f.urlKey value (serializeValue jsString p value) ::
      (if routesToDebounce callOpts.limitUrlUpdates hook.limitUrlUpdates
          p.limitUrlUpdates then
        (if (effectiveOptions hook callOpts p).shallow then
          [Ev.warnShallowDebounce] else []) ++
          [Ev.pushDebounce f.urlKey
            (debounceTimeMs callOpts.limitUrlUpdates hook.limitUrlUpdates
              p.limitUrlUpdates)]
      else
        [Ev.abortDebounce f.urlKey,
         Ev.pushThrottle f.urlKey
           (throttleTimeMs callOpts.limitUrlUpdates p.limitUrlUpdates
             hook.limitUrlUpdates callOpts.throttleMs p.throttleMs
             hook.throttleMs)])

/-- Loop state of the updater: the event trace so far, the currently selected
returned promise (URL key and delay of the debounce push it came from), and
maxDebounceTime. -/
structure UpdateAcc (V : Type) where
  trace : List (Ev V)
  returnedPromise : Option (String × JsTime)
  maxDebounceTime : JsTime

/-- One iteration of the updater loop (lines 277-336): skip fields without a
parser; append the field events; in the debounce branch, when the strict
comparison maxDebounceTime < timeMs holds, select this push as the returned
promise and raise maxDebounceTime. -/
def processField {V : Type} [BEq V] (hook : HookConfig) (callOpts : CallOptions)
    (jsString : V → Query) (acc : UpdateAcc V) (f : FieldWrite V) : UpdateAcc V :=
  match f.parser with
  | none => acc
  | some p =>
    let tr := acc.trace ++ fieldEvents hook callOpts jsString f
    if routesToDebounce callOpts.limitUrlUpdates hook.limitUrlUpdates
        p.limitUrlUpdates then
      let t := debounceTimeMs callOpts.limitUrlUpdates hook.limitUrlUpdates
        p.limitUrlUpdates
      if acc.maxDebounceTime.blt t then
        ⟨tr, some (f.urlKey, t), t⟩
      else
        { acc with trace := tr }
    else
      { acc with trace := tr }

/-- The synchronous body of the updater (create-query-states.ts lines
258-343): process every changed field in order, then flush the throttled
queue (threading the collected debounce-abort passthroughs over the flush
promise, each of which returns its argument). -/
def updateModel {V : Type} [BEq V] (hook : HookConfig) (callOpts : CallOptions)
    (jsString : V → Query) (fields : List (FieldWrite V)) : UpdateAcc V :=
  let acc := fields.foldl (processField hook callOpts jsString) ⟨[], none, .fin 0⟩
  { acc with trace := acc.trace ++ [Ev.throttleFlush] }

/-- The promise an updater call returns: the debounce promise selected for
some field (identified by its URL key and delay), or the throttled flush
chain (line 342: returnedPromise ?? globalPromise). -/
inductive RetPromise where
  | debounced (urlKey : String) (timeMs : JsTime)
  | globalChain
deriving DecidableEq, Repr

/-- The promise returned by one updater call. -/
def updateReturn {V : Type} [BEq V] (hook : HookConfig) (callOpts : CallOptions)
    (jsString : V → Query) (fields : List (FieldWrite V)) : RetPromise :=
  match (updateModel hook callOpts jsString fields).returnedPromise with
  | some (k, t) => .debounced k t
  | none => .globalChain

/-- Spec-side resolution of the effective rate limit, following the words of
the claim: per-call override first, then per-field (parser) override, then
hook-level default, then the process default rate limit, the first defined
layer providing both method and delay. -/
def specResolvedRateLimit (callRL parserRL hookRL : Option RateLimit) : RateLimit :=
  callRL.getD (parserRL.getD (hookRL.getD defaultRateLimit))

/-- Layered option resolution: the first defined layer wins, with a final
default. -/
def firstDefined {α : Type} : List (Option α) → α → α
  | [], d => d
  | some a :: _, _ => a
  | none :: rest, d => firstDefined rest d

/-- Concatenated field events of an updater call. -/
def eventsOf {V : Type} [BEq V] (hook : HookConfig) (callOpts : CallOptions)
    (jsString : V → Query) : List (FieldWrite V) → List (Ev V)
  | [] => []
  | f :: fs =>
    fieldEvents hook callOpts jsString f ++ eventsOf hook callOpts jsString fs

/-- URL keys and resolved delays of the fields routed to debounce, in call
order. -/
def debouncedDelays {V : Type} (hook : HookConfig) (callOpts : CallOptions) :
    List (FieldWrite V) → List (String × JsTime)
  | [] => []
  | f :: fs =>
    match f.parser with
    | none => debouncedDelays hook callOpts fs
    | some p =>
      if routesToDebounce callOpts.limitUrlUpdates hook.limitUrlUpdates
          p.limitUrlUpdates then
        (f.urlKey, debounceTimeMs callOpts.limitUrlUpdates hook.limitUrlUpdates
          p.limitUrlUpdates) :: debouncedDelays hook callOpts fs
      else debouncedDelays hook callOpts fs

/-- Maximum delay in a list, starting from a floor. -/
def listMaxFrom (m : JsTime) (l : List (String × JsTime)) : JsTime :=
  l.foldl (fun a kt => a.max kt.2) m

/-- Largest debounce delay of a call (a list of key-delay pairs), from 0. -/
def maxDelay (l : List (String × JsTime)) : JsTime := listMaxFrom (.fin 0) l

/-- First entry attaining a given delay. -/
def firstAttaining (m : JsTime) : List (String × JsTime) → Option (String × JsTime)
  | [] => none
  | kt :: rest => if kt.2 == m then some kt else firstAttaining m rest

/-- The promise-selection step of the updater loop, abstracted over the
selected promise and running maximum. -/
def selectStep (acc : Option (String × JsTime) × JsTime) (kt : String × JsTime) :
    Option (String × JsTime) × JsTime :=
  if acc.2.blt kt.2 then (some kt, kt.2) else acc

/-- A controller with no pending entries, an empty throttled queue and no
history, for concrete instantiations. -/
def sampleController : DebounceController :=
  ⟨[], fun _ => none, [], [], [], 0, 0⟩

/-- Hook-level configuration with no overrides: the defaults of
createQueryStates (history replace, shallow true, scroll false, clearOnDefault
true, throttle floor delay). -/
def hookPlain : HookConfig :=
  ⟨.replace, true, false, none, true, defaultRateLimit.timeMs, none⟩

/-- An updater call with no per-call options. -/
def emptyCallOptions : CallOptions := ⟨none, none, none, none, none, none, none⟩

/-- Per-call options that request throttling at 100ms. -/
def c1CallOptions : CallOptions :=
  ⟨some ⟨.throttle, .fin 100⟩, none, none, none, none, none, none⟩

/-- A parser whose per-field override requests debouncing at 200ms. -/
def c1Parser : ParserCfg String :=
  ⟨some ⟨.debounce, .fin 200⟩, none, none, none, none, none, none, none, none,
   none⟩

/-- A parser whose per-field override requests debouncing with a zero delay. -/
def c8Parser : ParserCfg String :=
  ⟨some ⟨.debounce, .fin 0⟩, none, none, none, none, none, none, none, none,
   none⟩

/-- A parser whose per-field override requests debouncing at 500ms. -/
def c8ParserLong : ParserCfg String :=
  ⟨some ⟨.debounce, .fin 500⟩, none, none, none, none, none, none, none, none,
   none⟩

-- Helper lemmas and claim theorems.

theorem settleOnce_lookup_self {O E : Type} (log : List (Nat × Settlement O E))
    (pid : Nat) (st : Settlement O E) (h : log.lookup pid = none) :
    (settleOnce log pid st).lookup pid = some st := by
  simp [settleOnce, h, List.lookup]

theorem settleOnce_preserves {O E : Type} (log : List (Nat × Settlement O E))
    (pid q : Nat) (st x : Settlement O E) (h : log.lookup q = some x) :
    (settleOnce log pid st).lookup q = some x := by
  unfold settleOnce
  cases hl : log.lookup pid with
  | some _ => simpa [hl] using h
  | none =>
    have hne : (q == pid) = false := by
      rcases Nat.decEq q pid with hne | heq
      · simpa using hne
      · subst heq; rw [h] at hl; cases hl
    simp [List.lookup, hne, h]

/-- C2: a second push to the same debounce queue before the timer expires
replaces the queued value, cancels the first push's timer, schedules a fresh
one, returns the very same promise as the first push without settling it, and
when the fresh timer fires the single flush of the latest value settles that
shared promise, so both callers observe the one eventual flush result. -/
theorem debounce_push_coalesces {V O E : Type} (q : DebouncedPromiseQueue V O E)
    (v1 v2 : V) (t1 t2 : Nat)
    (hpend : q.settled.lookup q.resolversId = none) :
    ((q.push v1 t1).2.push v2 t2).1 = (q.push v1 t1).1 ∧
    ((q.push v1 t1).2.push v2 t2).2.queuedValue = some v2 ∧
    (((q.push v1 t1).2.push v2 t2).2.timers.find?
        (fun t => t.tid == q.nextTimerId)).map (fun t => t.live) = some false ∧
    ((q.push v1 t1).2.push v2 t2).2.timers.find?
        (fun t => t.tid == q.nextTimerId + 1) = some ⟨q.nextTimerId + 1, v2, t2, true⟩ ∧
    ((q.push v1 t1).2.push v2 t2).2.settled = q.settled ∧
    (∀ (cb : V → CbBehavior O E) (s : Settlement O E), cb v2 = .settlesAsync s →
      ((((q.push v1 t1).2.push v2 t2).2.fire (q.nextTimerId + 1) cb).settled.lookup
        (q.push v1 t1).1) = some s) := by
  have hne : (q.nextTimerId + 1 == q.nextTimerId) = false := by simp
  refine ⟨rfl, rfl, ?_, ?_, rfl, ?_⟩
  · simp [DebouncedPromiseQueue.push, cancelTimers, List.find?, hne]
  · simp [DebouncedPromiseQueue.push, cancelTimers, List.find?]
  · intro cb s hcb
    have hfind : (((q.push v1 t1).2.push v2 t2).2.timers.find?
        (fun t => t.tid == q.nextTimerId + 1 && t.live))
        = some ⟨q.nextTimerId + 1, v2, t2, true⟩ := by
      simp [DebouncedPromiseQueue.push, cancelTimers, List.find?]
    unfold DebouncedPromiseQueue.fire
    rw [hfind]
    dsimp only
    rw [hcb]
    exact settleOnce_lookup_self _ _ _ hpend

/-- C2 witness: concrete double push on a fresh queue. -/
theorem debounce_push_coalesces_witness :
    (((DebouncedPromiseQueue.new (V := Nat) (O := Nat) (E := String)).push 1 300).2.push
        2 300).1 = ((DebouncedPromiseQueue.new (V := Nat) (O := Nat) (E := String)).push 1 300).1 ∧
    ((((DebouncedPromiseQueue.new (V := Nat) (O := Nat) (E := String)).push 1 300).2.push
        2 300).2.fire 1 (fun _ => .settlesAsync (.resolved 42))).settled.lookup
      ((DebouncedPromiseQueue.new (V := Nat) (O := Nat) (E := String)).push 1 300).1
      = some (.resolved 42) := by
  have h := debounce_push_coalesces (V := Nat) (O := Nat) (E := String)
    DebouncedPromiseQueue.new 1 2 300 300 (by decide)
  exact ⟨h.1, h.2.2.2.2.2 (fun _ => .settlesAsync (.resolved 42)) (.resolved 42) rfl⟩

/-- C5: when a live debounce timer fires and the flush callback either throws
synchronously or returns a promise that rejects, the resolvers current at
firing time are rejected with that error and the queued value is cleared. -/
theorem debounce_flush_failure_rejects {V O E : Type}
    (q : DebouncedPromiseQueue V O E) (tid : Nat) (t : TimerRec V)
    (hfind : q.timers.find? (fun u => u.tid == tid && u.live) = some t)
    (hpend : q.settled.lookup q.resolversId = none)
    (cb : V → CbBehavior O E) (e : E)
    (hcb : cb t.value = .throwsSync e ∨ cb t.value = .settlesAsync (.rejected e)) :
    (q.fire tid cb).settled.lookup q.resolversId = some (.rejected e) ∧
    (q.fire tid cb).queuedValue = none := by
  unfold DebouncedPromiseQueue.fire
  rw [hfind]
  dsimp only
  rcases hcb with hcb | hcb <;> rw [hcb] <;>
    exact ⟨settleOnce_lookup_self _ _ _ hpend, rfl⟩

/-- C5 witness: a fresh queue with one push whose callback rejects. -/
theorem debounce_flush_failure_rejects_witness :
    ((((DebouncedPromiseQueue.new (V := Nat) (O := Nat) (E := String)).push 7 100).2.fire 0
        (fun _ => .settlesAsync (.rejected "boom"))).settled.lookup 0
      = some (.rejected "boom")) ∧
    (((DebouncedPromiseQueue.new (V := Nat) (O := Nat) (E := String)).push 7 100).2.fire 0
        (fun _ => .settlesAsync (.rejected "boom"))).queuedValue = none := by
  exact debounce_flush_failure_rejects
    ((DebouncedPromiseQueue.new (V := Nat) (O := Nat) (E := String)).push 7 100).2
    0 ⟨0, 7, 100, true⟩ (by decide) (by decide)
    (fun _ => .settlesAsync (.rejected "boom")) "boom" (Or.inr rfl)

/-- C9 counterexample: with a signal that was already aborted when the scoped
timer was scheduled, the cancel signal fired before the delay elapsed, yet the
callback still runs once — the claim says it must never be invoked. -/
theorem timeout_cancel_counterexample :
    signalFiresBeforeExpiry .alreadyAborted = true ∧
    (timeoutRun .alreadyAborted).callbackRuns = 1 := by decide

/-- C9 amended: the callback is invoked exactly once after the delay unless
the cancel signal fires after scheduling and before expiry (a signal already
aborted at the call never delivers an abort event and does not cancel the
timer); on every path the abort listener is detached and the timer handle is
released. -/
theorem timeout_exactly_once_and_released : ∀ sc : AbortScenario,
    (sc = .firesDuring → (timeoutRun sc).callbackRuns = 0) ∧
    (sc ≠ .firesDuring → (timeoutRun sc).callbackRuns = 1) ∧
    (timeoutRun sc).listenerAttached = false ∧
    (timeoutRun sc).timerArmed = false := by
  intro sc
  cases sc <;>
    simp [timeoutRun, timeoutTick, timeoutAbortEvent, timeoutSchedule]

/-- C9 witness: the cancellation path and the plain firing path, concretely. -/
theorem timeout_exactly_once_and_released_witness :
    (timeoutRun .firesDuring).callbackRuns = 0 ∧
    (timeoutRun .neverFires).callbackRuns = 1 :=
  ⟨(timeout_exactly_once_and_released .firesDuring).1 rfl,
   (timeout_exactly_once_and_released .neverFires).2.1 (by decide)⟩

theorem settleOnce_lookup_cases {O E : Type} (log : List (Nat × Settlement O E))
    (p x : Nat) (st : Settlement O E) :
    (settleOnce log p st).lookup x = log.lookup x ∨
    (settleOnce log p st).lookup x = some st := by
  unfold settleOnce
  cases hl : log.lookup p with
  | some _ => left; rfl
  | none =>
    by_cases hx : x = p
    · subst hx; right; simp [List.lookup]
    · left
      have hne : (x == p) = false := by simpa using hx
      simp [List.lookup, hne]

theorem lookup_setEntry_self (qs : List (String × DCEntry)) (key : String)
    (e : DCEntry) : (setEntry qs key e).lookup key = some e := by
  induction qs with
  | nil => simp [setEntry, List.lookup]
  | cons kv rest ih =>
    rcases eq_or_ne kv.1 key with hk | hk
    · subst hk; simp [setEntry, List.lookup]
    · have h1 : (kv.1 == key) = false := by simpa using hk
      have h2 : (key == kv.1) = false := by simpa using hk.symm
      simp [setEntry, h1, List.lookup, h2, ih]

theorem lookup_filter_ne (qs : List (String × DCEntry)) (key : String) :
    (qs.filter (fun p => !(p.1 == key))).lookup key = none := by
  induction qs with
  | nil => rfl
  | cons kv rest ih =>
    rcases eq_or_ne kv.1 key with hk | hk
    · simp [List.filter, hk, ih]
    · have h1 : (kv.1 == key) = false := by simpa using hk
      have h2 : (key == kv.1) = false := by simpa using hk.symm
      simp [List.filter, h1, List.lookup, h2, ih]

/-- C4: getQueuedQuery returns the debounced queued query when one is present
and otherwise delegates to the throttled queue value for that key; and
immediately after a finite-delay debounced push for a key (before its timer
fires) it observes the query value just pushed. -/
theorem getQueuedQuery_prefers_debounced (s : DebounceController) (key : String) :
    (∀ u : UpdateQueuePushArgs,
      (s.queues.lookup key).bind (fun e => e.queuedValue) = some u →
      s.getQueuedQuery key = some u.query) ∧
    ((s.queues.lookup key).bind (fun e => e.queuedValue) = none →
      s.getQueuedQuery key = s.throttleQueued key) ∧
    (∀ (update : UpdateQueuePushArgs) (n : Nat) (adapter : AdapterCtx),
      update.key = key →
      (s.push update (.fin n) adapter).2.getQueuedQuery key = some update.query) := by
  refine ⟨?_, ?_, ?_⟩
  · intro u hu
    unfold DebounceController.getQueuedQuery
    rw [hu]
  · intro hn
    unfold DebounceController.getQueuedQuery
    rw [hn]
  · intro update n adapter hkey
    subst hkey
    cases hl : s.queues.lookup update.key <;>
      simp [DebounceController.push, hl, JsTime.isFinite,
        DebounceController.getQueuedQuery, lookup_setEntry_self]

/-- C4 witness: pushing q=foo with a 300ms debounce makes the queued query
observable at once; with nothing queued the throttled queue is consulted. -/
theorem getQueuedQuery_prefers_debounced_witness :
    (sampleController.push ⟨"q", some (.single "foo"), ⟨.replace, false, false, false⟩⟩
        (.fin 300) ⟨[]⟩).2.getQueuedQuery "q" = some (some (.single "foo")) ∧
    sampleController.getQueuedQuery "q" = sampleController.throttleQueued "q" :=
  ⟨(getQueuedQuery_prefers_debounced sampleController "q").2.2
      ⟨"q", some (.single "foo"), ⟨.replace, false, false, false⟩⟩ 300 ⟨[]⟩ rfl,
   (getQueuedQuery_prefers_debounced sampleController "q").2.1 (by decide)⟩

/-- C6: aborting a key with a pending debounce entry cancels its timer,
removes the entry from the queue map, and returns a passthrough wired to the
aborted entry's resolvers: applying it to a promise that settles with any
outcome settles the entry's original (pending) promise with that same
outcome. -/
theorem abort_rewires_pending_entry (s : DebounceController) (key : String)
    (e : DCEntry) (h : s.queues.lookup key = some e) :
    (s.abort key).2 = some e.resolversId ∧
    (s.abort key).1.queues.lookup key = none ∧
    (∀ t, e.timerId = some t → t ∈ (s.abort key).1.cancelledTimers) ∧
    (∀ outcome : Settlement SearchParams String,
      s.settled.lookup e.resolversId = none →
      (applyWiring (s.abort key).1 (s.abort key).2 outcome).settled.lookup
        e.resolversId = some outcome) := by
  unfold DebounceController.abort
  rw [h]
  dsimp only
  refine ⟨rfl, lookup_filter_ne _ _, ?_, ?_⟩
  · intro t ht
    rw [ht]
    dsimp only
    exact List.mem_cons_self _ _
  · intro outcome hpend
    dsimp [applyWiring]
    exact settleOnce_lookup_self _ _ _ hpend

/-- C6 witness: a controller with one pending entry for q, aborted; the
passthrough resolves the original promise with the outer outcome. -/
theorem abort_rewires_pending_entry_witness :
    (((sampleController.push ⟨"q", some (.single "v"), ⟨.replace, false, false, false⟩⟩
        (.fin 100) ⟨[]⟩).2.abort "q").2 = some 0) ∧
    ((applyWiring
        ((sampleController.push ⟨"q", some (.single "v"), ⟨.replace, false, false, false⟩⟩
            (.fin 100) ⟨[]⟩).2.abort "q").1
        ((sampleController.push ⟨"q", some (.single "v"), ⟨.replace, false, false, false⟩⟩
            (.fin 100) ⟨[]⟩).2.abort "q").2
        (.resolved [("a", "1")])).settled.lookup 0 = some (.resolved [("a", "1")])) :=
  have h := abort_rewires_pending_entry
    (sampleController.push ⟨"q", some (.single "v"), ⟨.replace, false, false, false⟩⟩
      (.fin 100) ⟨[]⟩).2 "q"
    ⟨0, some ⟨"q", some (.single "v"), ⟨.replace, false, false, false⟩⟩, some 0⟩
    (by decide)
  ⟨h.1, h.2.2.2 (.resolved [("a", "1")]) (by decide)⟩

/-- C10: aborting a key with no pending debounce entry returns the state
completely unchanged (queue map, throttled queue, emitter, timers, promises)
together with the identity passthrough, which wires nothing to the promise it
is applied to. -/
theorem abort_missing_key_frame (s : DebounceController) (key : String)
    (h : s.queues.lookup key = none) :
    s.abort key = (s, none) ∧
    (∀ outcome : Settlement SearchParams String,
      applyWiring (s.abort key).1 (s.abort key).2 outcome = (s.abort key).1) := by
  have habort : s.abort key = (s, none) := by
    unfold DebounceController.abort
    rw [h]
  exact ⟨habort, fun outcome => by rw [habort]; rfl⟩

/-- C10 witness: aborting an absent key on the empty controller. -/
theorem abort_missing_key_frame_witness :
    sampleController.abort "x" = (sampleController, none) ∧
    applyWiring (sampleController.abort "x").1 (sampleController.abort "x").2
      (.resolved []) = (sampleController.abort "x").1 :=
  have h := abort_missing_key_frame sampleController "x" rfl
  ⟨h.1, h.2 (.resolved [])⟩

theorem foldl_abortAllStep_queues (l : List (String × DCEntry))
    (acc : DebounceController) : (l.foldl abortAllStep acc).queues = acc.queues := by
  induction l generalizing acc with
  | nil => rfl
  | cons kv rest ih =>
    rw [List.foldl_cons, ih]
    rfl

theorem foldl_abortAllStep_settled_persist (l : List (String × DCEntry))
    (acc : DebounceController) (pid : Nat) (x : Settlement SearchParams String)
    (h : acc.settled.lookup pid = some x) :
    (l.foldl abortAllStep acc).settled.lookup pid = some x := by
  induction l generalizing acc with
  | nil => exact h
  | cons kv rest ih =>
    rw [List.foldl_cons]
    exact ih _ (settleOnce_preserves _ _ _ _ _ h)

theorem foldl_abortAllStep_cancel_persist (l : List (String × DCEntry))
    (acc : DebounceController) (t : Nat) (h : t ∈ acc.cancelledTimers) :
    t ∈ (l.foldl abortAllStep acc).cancelledTimers := by
  induction l generalizing acc with
  | nil => exact h
  | cons kv rest ih =>
    rw [List.foldl_cons]
    apply ih
    dsimp [abortAllStep]
    cases kv.2.timerId with
    | none => exact h
    | some u => exact List.mem_cons_of_mem _ h

theorem foldl_abortAllStep_resolves (l : List (String × DCEntry))
    (acc : DebounceController) (k : String) (e : DCEntry) (hmem : (k, e) ∈ l)
    (h : acc.settled.lookup e.resolversId = none ∨
         acc.settled.lookup e.resolversId = some (.resolved [])) :
    (l.foldl abortAllStep acc).settled.lookup e.resolversId
      = some (.resolved []) := by
  induction l generalizing acc with
  | nil => exact absurd hmem (List.not_mem_nil _)
  | cons kv rest ih =>
    rw [List.foldl_cons]
    rcases List.mem_cons.mp hmem with heq | hmem2
    · have hs : (abortAllStep acc kv).settled.lookup e.resolversId
          = some (.resolved []) := by
        rw [← heq]
        rcases h with h | h
        · exact settleOnce_lookup_self _ _ _ h
        · exact settleOnce_preserves _ _ _ _ _ h
      exact foldl_abortAllStep_settled_persist _ _ _ _ hs
    · refine ih _ hmem2 ?_
      rcases settleOnce_lookup_cases acc.settled kv.2.resolversId e.resolversId
          (.resolved []) with hc | hc
      · rcases h with h | h
        · left
          show (settleOnce acc.settled kv.2.resolversId
            (.resolved [])).lookup e.resolversId = none
          rw [hc]; exact h
        · right
          show (settleOnce acc.settled kv.2.resolversId
            (.resolved [])).lookup e.resolversId = some (.resolved [])
          rw [hc]; exact h
      · right; exact hc

theorem foldl_abortAllStep_cancels (l : List (String × DCEntry))
    (acc : DebounceController) (k : String) (e : DCEntry) (t : Nat)
    (hmem : (k, e) ∈ l) (ht : e.timerId = some t) :
    t ∈ (l.foldl abortAllStep acc).cancelledTimers := by
  induction l generalizing acc with
  | nil => exact absurd hmem (List.not_mem_nil _)
  | cons kv rest ih =>
    rw [List.foldl_cons]
    rcases List.mem_cons.mp hmem with heq | hmem2
    · have hin : t ∈ (abortAllStep acc kv).cancelledTimers := by
        rw [← heq]
        dsimp [abortAllStep]
        rw [ht]
        exact List.mem_cons_self _ _
      exact foldl_abortAllStep_cancel_persist _ _ _ hin
    · exact ih _ hmem2

/-- C7: abortAll cancels every pending entry's timer, resolves each pending
entry's promise with an empty URLSearchParams, clears the queue map, and an
immediately following second abortAll is a no-op on the resulting state. -/
theorem abortAll_resolves_and_idempotent (s : DebounceController) :
    s.abortAll.queues = [] ∧
    (∀ (k : String) (e : DCEntry), (k, e) ∈ s.queues →
      s.settled.lookup e.resolversId = none →
      s.abortAll.settled.lookup e.resolversId = some (.resolved [])) ∧
    (∀ (k : String) (e : DCEntry) (t : Nat), (k, e) ∈ s.queues →
      e.timerId = some t → t ∈ s.abortAll.cancelledTimers) ∧
    s.abortAll.abortAll = s.abortAll := by
  refine ⟨rfl, ?_, ?_, rfl⟩
  · intro k e hmem hpend
    exact foldl_abortAllStep_resolves s.queues s k e hmem (Or.inl hpend)
  · intro k e t hmem ht
    exact foldl_abortAllStep_cancels s.queues s k e t hmem ht

/-- C7 witness: a controller with one pending entry for q; abortAll resolves
its promise with an empty result and cancels its timer. -/
theorem abortAll_resolves_and_idempotent_witness :
    ((sampleController.push ⟨"q", some (.single "v"), ⟨.replace, false, false, false⟩⟩
        (.fin 100) ⟨[]⟩).2.abortAll.settled.lookup 0 = some (.resolved [])) ∧
    (0 ∈ (sampleController.push ⟨"q", some (.single "v"), ⟨.replace, false, false, false⟩⟩
        (.fin 100) ⟨[]⟩).2.abortAll.cancelledTimers) :=
  have h := abortAll_resolves_and_idempotent
    (sampleController.push ⟨"q", some (.single "v"), ⟨.replace, false, false, false⟩⟩
      (.fin 100) ⟨[]⟩).2
  ⟨h.2.1 "q" ⟨0, some ⟨"q", some (.single "v"), ⟨.replace, false, false, false⟩⟩, some 0⟩
      (by decide) (by decide),
   h.2.2.1 "q" ⟨0, some ⟨"q", some (.single "v"), ⟨.replace, false, false, false⟩⟩, some 0⟩
      0 (by decide) rfl⟩

theorem JsTime.blt_irrefl (a : JsTime) : a.blt a = false := by
  cases a <;> simp [JsTime.blt]

theorem JsTime.ble_refl (a : JsTime) : a.ble a = true := by
  simp [JsTime.ble, JsTime.blt_irrefl]

theorem JsTime.max_eq_right {a b : JsTime} (h : a.blt b = true) : a.max b = b := by
  simp [JsTime.max, h]

theorem JsTime.max_eq_left {a b : JsTime} (h : a.blt b = false) : a.max b = a := by
  simp [JsTime.max, h]

theorem JsTime.ble_of_blt {a b : JsTime} (h : a.blt b = true) : a.ble b = true := by
  cases a <;> cases b <;> simp_all [JsTime.blt, JsTime.ble] <;> omega

theorem JsTime.ble_max_left (a b : JsTime) : a.ble (a.max b) = true := by
  cases hb : a.blt b with
  | true => rw [JsTime.max_eq_right hb]; exact JsTime.ble_of_blt hb
  | false => rw [JsTime.max_eq_left hb]; exact JsTime.ble_refl a

theorem JsTime.ble_trans {a b c : JsTime} (h1 : a.ble b = true)
    (h2 : b.ble c = true) : a.ble c = true := by
  cases a <;> cases b <;> cases c <;> simp_all [JsTime.blt, JsTime.ble] <;> omega

theorem JsTime.blt_of_blt_of_ble {a b c : JsTime} (h1 : a.blt b = true)
    (h2 : b.ble c = true) : a.blt c = true := by
  cases a <;> cases b <;> cases c <;> simp_all [JsTime.blt, JsTime.ble] <;> omega

theorem JsTime.blt_of_ble_of_blt {a b c : JsTime} (h1 : a.ble b = true)
    (h2 : b.blt c = true) : a.blt c = true := by
  cases a <;> cases b <;> cases c <;> simp_all [JsTime.blt, JsTime.ble] <;> omega

theorem JsTime.blt_of_ble_of_ne {a b : JsTime} (h1 : a.ble b = true)
    (h2 : a ≠ b) : a.blt b = true := by
  cases a <;> cases b <;> simp_all [JsTime.blt, JsTime.ble] <;> omega

theorem JsTime.ne_of_blt {a b : JsTime} (h : a.blt b = true) : a ≠ b := by
  cases a <;> cases b <;> simp_all [JsTime.blt]; omega

theorem ble_listMaxFrom (l : List (String × JsTime)) (m : JsTime) :
    m.ble (listMaxFrom m l) = true := by
  induction l generalizing m with
  | nil => exact JsTime.ble_refl m
  | cons kt rest ih =>
    unfold listMaxFrom
    rw [List.foldl_cons]
    exact JsTime.ble_trans (JsTime.ble_max_left m kt.2) (ih (m.max kt.2))

theorem listMaxFrom_cons (m : JsTime) (kt : String × JsTime)
    (rest : List (String × JsTime)) :
    listMaxFrom m (kt :: rest) = listMaxFrom (m.max kt.2) rest := rfl

theorem selectStep_foldl_spec (l : List (String × JsTime))
    (rp : Option (String × JsTime)) (m : JsTime) :
    (l.foldl selectStep (rp, m)).2 = listMaxFrom m l ∧
    (l.foldl selectStep (rp, m)).1 =
      (if m.blt (listMaxFrom m l) = true then firstAttaining (listMaxFrom m l) l
       else rp) := by
  induction l generalizing rp m with
  | nil =>
    refine ⟨rfl, ?_⟩
    simp [listMaxFrom, JsTime.blt_irrefl]
  | cons kt rest ih =>
    rw [List.foldl_cons]
    cases hb : m.blt kt.2 with
    | true =>
      have hsel : selectStep (rp, m) kt = (some kt, kt.2) := by
        simp [selectStep, hb]
      rw [hsel]
      have hmax : m.max kt.2 = kt.2 := JsTime.max_eq_right hb
      have hMs : listMaxFrom m (kt :: rest) = listMaxFrom kt.2 rest := by
        rw [listMaxFrom_cons, hmax]
      obtain ⟨ih2, ih1⟩ := ih (some kt) kt.2
      refine ⟨by rw [ih2, hMs], ?_⟩
      rw [hMs, ih1]
      have hktM : kt.2.ble (listMaxFrom kt.2 rest) = true := ble_listMaxFrom rest kt.2
      have hmM : m.blt (listMaxFrom kt.2 rest) = true :=
        JsTime.blt_of_blt_of_ble hb hktM
      rw [if_pos hmM]
      rcases eq_or_ne kt.2 (listMaxFrom kt.2 rest) with hkM | hkM
      · have h1 : kt.2.blt (listMaxFrom kt.2 rest) = false := by
          rw [← hkM]; exact JsTime.blt_irrefl kt.2
        rw [if_neg (by simp [h1])]
        conv_rhs => rw [firstAttaining]
        rw [if_pos (by rw [← hkM]; simp)]
      · have h1 : kt.2.blt (listMaxFrom kt.2 rest) = true :=
          JsTime.blt_of_ble_of_ne hktM hkM
        rw [if_pos h1]
        conv_rhs => rw [firstAttaining]
        rw [if_neg (by simp [hkM])]
    | false =>
      have hsel : selectStep (rp, m) kt = (rp, m) := by
        simp [selectStep, hb]
      rw [hsel]
      have hmax : m.max kt.2 = m := JsTime.max_eq_left hb
      have hMs : listMaxFrom m (kt :: rest) = listMaxFrom m rest := by
        rw [listMaxFrom_cons, hmax]
      obtain ⟨ih2, ih1⟩ := ih rp m
      refine ⟨by rw [ih2, hMs], ?_⟩
      rw [hMs, ih1]
      by_cases hm : m.blt (listMaxFrom m rest) = true
      · rw [if_pos hm, if_pos hm]
        have hktm : kt.2.ble m = true := by simp [JsTime.ble, hb]
        have hkt : kt.2.blt (listMaxFrom m rest) = true :=
          JsTime.blt_of_ble_of_blt hktm hm
        conv_rhs => rw [firstAttaining]
        rw [if_neg (by simp [JsTime.ne_of_blt hkt])]
      · rw [if_neg hm, if_neg hm]

theorem processField_trace {V : Type} [BEq V] (hook : HookConfig)
    (callOpts : CallOptions) (jsString : V → Query) (acc : UpdateAcc V)
    (f : FieldWrite V) :
    (processField hook callOpts jsString acc f).trace
      = acc.trace ++ fieldEvents hook callOpts jsString f := by
  unfold processField
  cases hp : f.parser with
  | none => simp [fieldEvents, hp]
  | some p =>
    dsimp only
    split
    · split <;> rfl
    · rfl

theorem foldl_processField_trace {V : Type} [BEq V] (hook : HookConfig)
    (callOpts : CallOptions) (jsString : V → Query)
    (fields : List (FieldWrite V)) (acc : UpdateAcc V) :
    (fields.foldl (processField hook callOpts jsString) acc).trace
      = acc.trace ++ eventsOf hook callOpts jsString fields := by
  induction fields generalizing acc with
  | nil => simp [eventsOf]
  | cons f fs ih =>
    rw [List.foldl_cons, ih, processField_trace]
    simp [eventsOf]

theorem updateModel_trace {V : Type} [BEq V] (hook : HookConfig)
    (callOpts : CallOptions) (jsString : V → Query)
    (fields : List (FieldWrite V)) :
    (updateModel hook callOpts jsString fields).trace
      = eventsOf hook callOpts jsString fields ++ [Ev.throttleFlush] := by
  unfold updateModel
  dsimp only
  rw [foldl_processField_trace]
  simp

theorem eventsOf_split {V : Type} [BEq V] (hook : HookConfig)
    (callOpts : CallOptions) (jsString : V → Query)
    (fields : List (FieldWrite V)) (f : FieldWrite V) (hmem : f ∈ fields) :
    ∃ pre post, eventsOf hook callOpts jsString fields
      = pre ++ fieldEvents hook callOpts jsString f ++ post := by
  induction fields with
  | nil => exact absurd hmem (List.not_mem_nil _)
  | cons g fs ih =>
    rcases List.mem_cons.mp hmem with heq | hmem2
    · subst heq
      exact ⟨[], eventsOf hook callOpts jsString fs, by simp [eventsOf]⟩
    · obtain ⟨pre, post, hsplit⟩ := ih hmem2
      exact ⟨fieldEvents hook callOpts jsString g ++ pre, post,
        by simp [eventsOf, hsplit]⟩

/-- C3: for every field of an updater call that has a parser, the synchronous
trace of the call decomposes as some prefix, then the cross-hook sync emission
of that field's nullified state and query, then that field's queue-routing
events, then the rest, with the throttled flush (the only URL-commit trigger
of the call body) at the very end: the sync payload is emitted before the
update is routed to either queue and before any URL commit. -/
theorem emit_precedes_routing_and_flush {V : Type} [BEq V] (hook : HookConfig)
    (callOpts : CallOptions) (jsString : V → Query)
    (fields : List (FieldWrite V)) (f : FieldWrite V) (p : ParserCfg V)
    (hmem : f ∈ fields) (hp : f.parser = some p) :
    ∃ pre routeEvs post,
      (updateModel hook callOpts jsString fields).trace
        = pre ++ (Ev.emitSync f.urlKey (resolveValue hook callOpts p f.value)
            (serializeValue jsString p (resolveValue hook callOpts p f.value))
            :: routeEvs) ++ post ++ [Ev.throttleFlush] ∧
      ((∃ t, Ev.pushDebounce f.urlKey t ∈ routeEvs) ∨
       (∃ t, Ev.pushThrottle f.urlKey t ∈ routeEvs)) := by
  obtain ⟨pre, post, hsplit⟩ := eventsOf_split hook callOpts jsString fields f hmem
  cases hr : routesToDebounce callOpts.limitUrlUpdates hook.limitUrlUpdates
      p.limitUrlUpdates with
  | true =>
    refine ⟨pre,
      (if (effectiveOptions hook callOpts p).shallow then [Ev.warnShallowDebounce]
        else []) ++
        [Ev.pushDebounce f.urlKey (debounceTimeMs callOpts.limitUrlUpdates
          hook.limitUrlUpdates p.limitUrlUpdates)],
      post, ?_, Or.inl ⟨debounceTimeMs callOpts.limitUrlUpdates
        hook.limitUrlUpdates p.limitUrlUpdates, by simp⟩⟩
    have hfe : fieldEvents hook callOpts jsString f
        = Ev.emitSync f.urlKey (resolveValue hook callOpts p f.value)
            (serializeValue jsString p (resolveValue hook callOpts p f.value)) ::
          ((if (effectiveOptions hook callOpts p).shallow
              then [Ev.warnShallowDebounce] else []) ++
            [Ev.pushDebounce f.urlKey (debounceTimeMs callOpts.limitUrlUpdates
              hook.limitUrlUpdates p.limitUrlUpdates)]) := by
      unfold fieldEvents
      rw [hp]
      simp [hr]
    rw [updateModel_trace, hsplit, hfe]
  | false =>
    refine ⟨pre,
      [Ev.abortDebounce f.urlKey,
       Ev.pushThrottle f.urlKey (throttleTimeMs callOpts.limitUrlUpdates
         p.limitUrlUpdates hook.limitUrlUpdates callOpts.throttleMs p.throttleMs
         hook.throttleMs)],
      post, ?_, Or.inr ⟨throttleTimeMs callOpts.limitUrlUpdates
        p.limitUrlUpdates hook.limitUrlUpdates callOpts.throttleMs p.throttleMs
        hook.throttleMs, by simp⟩⟩
    have hfe : fieldEvents hook callOpts jsString f
        = Ev.emitSync f.urlKey (resolveValue hook callOpts p f.value)
            (serializeValue jsString p (resolveValue hook callOpts p f.value)) ::
          [Ev.abortDebounce f.urlKey,
           Ev.pushThrottle f.urlKey (throttleTimeMs callOpts.limitUrlUpdates
             p.limitUrlUpdates hook.limitUrlUpdates callOpts.throttleMs
             p.throttleMs hook.throttleMs)] := by
      unfold fieldEvents
      rw [hp]
      simp [hr]
    rw [updateModel_trace, hsplit, hfe]

/-- C3 witness: a one-field call, with the trace decomposition instantiated. -/
theorem emit_precedes_routing_and_flush_witness :
    ∃ pre routeEvs post,
      (updateModel hookPlain c1CallOptions Query.single
          [⟨"q", "q", some c1Parser, some "foo"⟩]).trace
        = pre ++ (Ev.emitSync "q"
            (resolveValue hookPlain c1CallOptions c1Parser (some "foo"))
            (serializeValue Query.single c1Parser
              (resolveValue hookPlain c1CallOptions c1Parser (some "foo")))
            :: routeEvs) ++ post ++ [Ev.throttleFlush] ∧
      ((∃ t, Ev.pushDebounce "q" t ∈ routeEvs) ∨
       (∃ t, Ev.pushThrottle "q" t ∈ routeEvs)) :=
  emit_precedes_routing_and_flush hookPlain c1CallOptions Query.single
    [⟨"q", "q", some c1Parser, some "foo"⟩] ⟨"q", "q", some c1Parser, some "foo"⟩
    c1Parser (List.mem_singleton.mpr rfl) rfl

/-- C1 counterexample: the per-call override requests throttling at 100ms
while the per-field (parser) override requests debouncing at 200ms.  Under
the claimed priority order (per-call first) the effective method is throttle,
but the updater routes the field into the debounce queue (at the per-call
delay): the method is not resolved by the claimed priority order. -/
theorem priority_order_counterexample :
    (specResolvedRateLimit (some ⟨.throttle, .fin 100⟩)
        (some ⟨.debounce, .fin 200⟩) none).method = .throttle ∧
    Ev.pushDebounce "q" (.fin 100)
      ∈ (updateModel hookPlain c1CallOptions Query.single
          [⟨"q", "q", some c1Parser, some "foo"⟩]).trace := by decide

/-- C1 amended: the effective method is debounce iff any of the per-call,
hook-level or per-field rate-limit overrides names debounce (a disjunction,
not a priority order); when debouncing, the delay is the first defined among
per-call, hook-level, per-field, process default; when throttling, the first
defined among per-call limitUrlUpdates, per-field limitUrlUpdates, hook-level
limitUrlUpdates, per-call throttleMs, per-field throttleMs, hook-level
throttleMs; and the updater emits exactly these resolutions for a field. -/
theorem scheduling_resolution_characterization {V : Type} [BEq V]
    (hook : HookConfig) (callOpts : CallOptions) (jsString : V → Query)
    (f : FieldWrite V) (p : ParserCfg V) (hp : f.parser = some p) :
    (routesToDebounce callOpts.limitUrlUpdates hook.limitUrlUpdates
        p.limitUrlUpdates = true ↔
      (callOpts.limitUrlUpdates.map RateLimit.method = some .debounce ∨
       hook.limitUrlUpdates.map RateLimit.method = some .debounce ∨
       p.limitUrlUpdates.map RateLimit.method = some .debounce)) ∧
    debounceTimeMs callOpts.limitUrlUpdates hook.limitUrlUpdates
        p.limitUrlUpdates
      = firstDefined [callOpts.limitUrlUpdates.map RateLimit.timeMs,
          hook.limitUrlUpdates.map RateLimit.timeMs,
          p.limitUrlUpdates.map RateLimit.timeMs] defaultRateLimit.timeMs ∧
    throttleTimeMs callOpts.limitUrlUpdates p.limitUrlUpdates
        hook.limitUrlUpdates callOpts.throttleMs p.throttleMs hook.throttleMs
      = firstDefined [callOpts.limitUrlUpdates.map RateLimit.timeMs,
          p.limitUrlUpdates.map RateLimit.timeMs,
          hook.limitUrlUpdates.map RateLimit.timeMs,
          callOpts.throttleMs, p.throttleMs] hook.throttleMs ∧
    fieldEvents hook callOpts jsString f
      = Ev.emitSync f.urlKey (resolveValue hook callOpts p f.value)
          (serializeValue jsString p (resolveValue hook callOpts p f.value)) ::
        (if routesToDebounce callOpts.limitUrlUpdates hook.limitUrlUpdates
            p.limitUrlUpdates then
          (if (effectiveOptions hook callOpts p).shallow
            then [Ev.warnShallowDebounce] else []) ++
            [Ev.pushDebounce f.urlKey (debounceTimeMs callOpts.limitUrlUpdates
              hook.limitUrlUpdates p.limitUrlUpdates)]
        else
          [Ev.abortDebounce f.urlKey,
           Ev.pushThrottle f.urlKey (throttleTimeMs callOpts.limitUrlUpdates
             p.limitUrlUpdates hook.limitUrlUpdates callOpts.throttleMs
             p.throttleMs hook.throttleMs)]) := by
  have hx : ∀ o : Option RateLimit,
      (o.any (fun r => r.method == RLMethod.debounce) = true) ↔
      o.map RateLimit.method = some .debounce := by
    intro o
    cases o with
    | none => simp [Option.any]
    | some r => cases hr : r.method <;> simp [Option.any, hr]
  refine ⟨?_, ?_, ?_, ?_⟩
  · simp [routesToDebounce, Bool.or_eq_true, hx, or_assoc]
  · rcases callOpts.limitUrlUpdates with _ | c <;>
      rcases hook.limitUrlUpdates with _ | h <;>
      rcases p.limitUrlUpdates with _ | q <;> rfl
  · rcases callOpts.limitUrlUpdates with _ | c <;>
      rcases p.limitUrlUpdates with _ | q <;>
      rcases hook.limitUrlUpdates with _ | h <;>
      rcases callOpts.throttleMs with _ | ct <;>
      rcases p.throttleMs with _ | pt <;> rfl
  · unfold fieldEvents
    rw [hp]

/-- C1 amended witness: with a per-call throttle override and a per-field
debounce override, the field is debounced (any-layer disjunction) at the
per-call delay of 100ms. -/
theorem scheduling_resolution_characterization_witness :
    routesToDebounce c1CallOptions.limitUrlUpdates hookPlain.limitUrlUpdates
      c1Parser.limitUrlUpdates = true ∧
    debounceTimeMs c1CallOptions.limitUrlUpdates hookPlain.limitUrlUpdates
      c1Parser.limitUrlUpdates = .fin 100 :=
  have h := scheduling_resolution_characterization hookPlain c1CallOptions
    Query.single ⟨"q", "q", some c1Parser, some "foo"⟩ c1Parser rfl
  ⟨h.1.mpr (Or.inr (Or.inr (by decide))), h.2.1.trans (by decide)⟩

theorem debouncedDelays_cons {V : Type} (hook : HookConfig)
    (callOpts : CallOptions) (f : FieldWrite V) (fs : List (FieldWrite V)) :
    debouncedDelays hook callOpts (f :: fs)
      = (match f.parser with
        | none => debouncedDelays hook callOpts fs
        | some p =>
          if routesToDebounce callOpts.limitUrlUpdates hook.limitUrlUpdates
              p.limitUrlUpdates then
            (f.urlKey, debounceTimeMs callOpts.limitUrlUpdates
              hook.limitUrlUpdates p.limitUrlUpdates)
              :: debouncedDelays hook callOpts fs
          else debouncedDelays hook callOpts fs) := rfl

theorem foldl_processField_select {V : Type} [BEq V] (hook : HookConfig)
    (callOpts : CallOptions) (jsString : V → Query)
    (fields : List (FieldWrite V)) (acc : UpdateAcc V) :
    ((fields.foldl (processField hook callOpts jsString) acc).returnedPromise,
     (fields.foldl (processField hook callOpts jsString) acc).maxDebounceTime)
      = (debouncedDelays hook callOpts fields).foldl selectStep
          (acc.returnedPromise, acc.maxDebounceTime) := by
  induction fields generalizing acc with
  | nil => rfl
  | cons f fs ih =>
    rw [List.foldl_cons]
    cases hp : f.parser with
    | none =>
      have h1 : processField hook callOpts jsString acc f = acc := by
        unfold processField
        rw [hp]
      have h2 : debouncedDelays hook callOpts (f :: fs)
          = debouncedDelays hook callOpts fs := by
        rw [debouncedDelays_cons, hp]
      rw [h1, h2]
      exact ih acc
    | some p =>
      cases hr : routesToDebounce callOpts.limitUrlUpdates hook.limitUrlUpdates
          p.limitUrlUpdates with
      | false =>
        have h1 : processField hook callOpts jsString acc f
            = { acc with trace := acc.trace ++ fieldEvents hook callOpts jsString f } := by
          unfold processField
          rw [hp]
          simp [hr]
        have h2 : debouncedDelays hook callOpts (f :: fs)
            = debouncedDelays hook callOpts fs := by
          rw [debouncedDelays_cons, hp]
          simp [hr]
        rw [h1, h2]
        exact ih _
      | true =>
        have h2 : debouncedDelays hook callOpts (f :: fs)
            = (f.urlKey, debounceTimeMs callOpts.limitUrlUpdates
                hook.limitUrlUpdates p.limitUrlUpdates)
              :: debouncedDelays hook callOpts fs := by
          rw [debouncedDelays_cons, hp]
          simp [hr]
        rw [h2, List.foldl_cons]
        cases hb : acc.maxDebounceTime.blt (debounceTimeMs
            callOpts.limitUrlUpdates hook.limitUrlUpdates p.limitUrlUpdates) with
        | true =>
          have h1 : processField hook callOpts jsString acc f
              = ⟨acc.trace ++ fieldEvents hook callOpts jsString f,
                 some (f.urlKey, debounceTimeMs callOpts.limitUrlUpdates
                   hook.limitUrlUpdates p.limitUrlUpdates),
                 debounceTimeMs callOpts.limitUrlUpdates hook.limitUrlUpdates
                   p.limitUrlUpdates⟩ := by
            unfold processField
            rw [hp]
            simp [hr, hb]
          have h3 : selectStep (acc.returnedPromise, acc.maxDebounceTime)
              (f.urlKey, debounceTimeMs callOpts.limitUrlUpdates
                hook.limitUrlUpdates p.limitUrlUpdates)
              = (some (f.urlKey, debounceTimeMs callOpts.limitUrlUpdates
                  hook.limitUrlUpdates p.limitUrlUpdates),
                 debounceTimeMs callOpts.limitUrlUpdates hook.limitUrlUpdates
                   p.limitUrlUpdates) := by
            simp [selectStep, hb]
          rw [h1, h3]
          exact ih _
        | false =>
          have h1 : processField hook callOpts jsString acc f
              = { acc with trace := acc.trace ++ fieldEvents hook callOpts jsString f } := by
            unfold processField
            rw [hp]
            simp [hr, hb]
          have h3 : selectStep (acc.returnedPromise, acc.maxDebounceTime)
              (f.urlKey, debounceTimeMs callOpts.limitUrlUpdates
                hook.limitUrlUpdates p.limitUrlUpdates)
              = (acc.returnedPromise, acc.maxDebounceTime) := by
            simp [selectStep, hb]
          rw [h1, h3]
          exact ih _

/-- C8 counterexample: a call whose only changed field is routed to debounce
with a configured delay of 0ms.  The field is debounced (its push is in the
trace) and is the debounced field with the longest delay, yet the updater
returns the throttled flush chain, not that field's debounce promise, because
the selection compares with a strict maxDebounceTime < timeMs starting at 0. -/
theorem returned_promise_counterexample :
    Ev.pushDebounce "q" (.fin 0)
      ∈ (updateModel hookPlain emptyCallOptions Query.single
          [⟨"q", "q", some c8Parser, some "x"⟩]).trace ∧
    updateReturn hookPlain emptyCallOptions Query.single
      [⟨"q", "q", some c8Parser, some "x"⟩] = .globalChain := by decide

/-- C8 amended: when the largest resolved debounce delay of the call is
positive, the returned promise is the debounce promise of the first field
attaining that largest delay; otherwise (no debounced field, or every
debounced delay is 0) the throttled flush chain is returned. -/
theorem update_returns_longest_positive_debounce {V : Type} [BEq V]
    (hook : HookConfig) (callOpts : CallOptions) (jsString : V → Query)
    (fields : List (FieldWrite V)) :
    ((JsTime.fin 0).blt (maxDelay (debouncedDelays hook callOpts fields)) = false →
      updateReturn hook callOpts jsString fields = .globalChain) ∧
    (∀ (k : String) (t : JsTime),
      (JsTime.fin 0).blt (maxDelay (debouncedDelays hook callOpts fields)) = true →
      firstAttaining (maxDelay (debouncedDelays hook callOpts fields))
        (debouncedDelays hook callOpts fields) = some (k, t) →
      updateReturn hook callOpts jsString fields = .debounced k t) := by
  have hsel := foldl_processField_select hook callOpts jsString fields
    ⟨[], none, .fin 0⟩
  have hspec := selectStep_foldl_spec (debouncedDelays hook callOpts fields)
    none (.fin 0)
  have hrp : (updateModel hook callOpts jsString fields).returnedPromise
      = ((debouncedDelays hook callOpts fields).foldl selectStep
          (none, JsTime.fin 0)).1 := by
    have h1 : (updateModel hook callOpts jsString fields).returnedPromise
        = (fields.foldl (processField hook callOpts jsString)
            ⟨[], none, .fin 0⟩).returnedPromise := rfl
    rw [h1]
    simpa using congrArg Prod.fst hsel
  constructor
  · intro h0
    have h0x : (JsTime.fin 0).blt (listMaxFrom (JsTime.fin 0)
        (debouncedDelays hook callOpts fields)) = false := h0
    unfold updateReturn
    rw [hrp, hspec.2, if_neg (by simp [h0x])]
  · intro k t h0 hfa
    have h0x : (JsTime.fin 0).blt (listMaxFrom (JsTime.fin 0)
        (debouncedDelays hook callOpts fields)) = true := h0
    have hfax : firstAttaining (listMaxFrom (JsTime.fin 0)
          (debouncedDelays hook callOpts fields))
        (debouncedDelays hook callOpts fields) = some (k, t) := hfa
    unfold updateReturn
    rw [hrp, hspec.2, if_pos h0x, hfax]

/-- C8 amended witness: two debounced fields at 200ms and 500ms; the returned
promise is the 500ms debounce promise; and a call whose only debounce delay
is 0 returns the throttled chain. -/
theorem update_returns_longest_positive_debounce_witness :
    updateReturn hookPlain emptyCallOptions Query.single
      [⟨"a", "a", some c1Parser, some "x"⟩, ⟨"b", "b", some c8ParserLong, some "y"⟩]
      = .debounced "b" (.fin 500) ∧
    updateReturn hookPlain emptyCallOptions Query.single
      [⟨"q", "q", some c8Parser, some "x"⟩] = .globalChain :=
  ⟨(update_returns_longest_positive_debounce hookPlain emptyCallOptions
      Query.single
      [⟨"a", "a", some c1Parser, some "x"⟩,
       ⟨"b", "b", some c8ParserLong, some "y"⟩]).2 "b" (.fin 500)
      (by decide) (by decide),
   (update_returns_longest_positive_debounce hookPlain emptyCallOptions
      Query.single [⟨"q", "q", some c8Parser, some "x"⟩]).1 (by decide)⟩

end NuqsSolid
